import Mathlib

/-!
Verification of the LinkedQL query layer of the cayley graph database:
the step compiler (`BuildFrom`, step → path compilation), the iterator
execution layer (`ValueIterator`, `TagsIterator`), the document assembler,
the result-shaping steps (`Select`, `SelectFirst`, `Value`, `Documents`)
and the `Match` pattern compiler.

The four top-level steps and `BuildFrom` are embedded directly from the
source (`query/linkedql/steps/steps_final.go` and the `BuildFrom` helper).
The path algebra, the iterators, the document assembler and the pattern
compiler are not part of the provided source slice; they are modelled from
the specification (sections 4.1, 4.2, 4.4, 4.5) as noted on each definition.
-/

namespace LinkedQL

/-- A quad of the store.  All values appearing in the claims are IRIs, so a
node is represented by its string identifier.  Labels are absent in every
store the claims mention (the tests use `quad.MakeIRI(s, p, o, "")`, which
yields a nil label), so they are omitted. -/
structure Quad where
  subject : String
  predicate : String
  object : String
deriving DecidableEq, Repr

/-- The in-memory quad store: a list of quads in insertion order. -/
abbrev Store := List Quad

/-- First-occurrence deduplication, keeping insertion order. -/
def dedupFirst (l : List String) : List String :=
  l.foldl (fun acc x => if x ∈ acc then acc else acc ++ [x]) []

/-- Modelled from the spec (§6, store contract; memstore): the nodes of the
store are every subject, predicate and object value, each registered once,
in first-appearance order. -/
def nodesOf (qs : Store) : List String :=
  dedupFirst ((qs : List Quad).flatMap fun q => [q.subject, q.predicate, q.object])

/-- A tag binding set: tag name to node identifier (§3). -/
abbrev TagMap := List (String × String)

/-- Update-or-append for tag binding sets: rebinding an existing tag
replaces its value, keeping tag names unique within one result (§3). -/
def upsert (k v : String) (l : TagMap) : TagMap :=
  if l.any (fun p => p.1 = k) then
    l.map (fun p => if p.1 = k then (k, v) else p)
  else l ++ [(k, v)]

/-- Look a tag up in a binding set (first occurrence; `upsert` keeps names
unique). -/
def lookupTag (k : String) (l : TagMap) : Option String :=
  (l.find? (fun p => p.1 = k)).map (·.2)

/-- One match of a compiled path: the current node plus the tag binding
set accumulated along the traversal (§3). -/
structure Binding where
  cur : String
  tags : TagMap
deriving DecidableEq

/-- Modelled from the spec (§4.1, universal base case): "start at every
node" — one binding per store node, with no tags. -/
def startAll (qs : Store) : List Binding :=
  (nodesOf qs).map fun v => ⟨v, []⟩

mutual
/-- The step AST (§4.1).  Each variant's `fr` field is its "From" child;
the dedicated `start` variant stands for an omitted From inside the tree
(the source's `BuildFrom` maps a nil From to `path.StartPath`).  Constructor
names follow the source's step names. -/
inductive PathStep where
  | start
  | Vertex (values : List String)
  | Placeholder
  | Visit (fr : PathStep) (props : PathStep)
  | VisitReverse (fr : PathStep) (props : PathStep)
  | As (fr : PathStep) (name : String)
  | Is (fr : PathStep) (values : List String)
  | Has (fr : PathStep) (props : PathStep) (values : List String)
  | Optional (fr : PathStep) (step : PathStep)
  | Where (fr : PathStep) (steps : StepList)
  | Properties (fr : PathStep) (names : List String)

/-- A list of steps (`Where.Steps`), mutual with `PathStep` so that all
recursion over the AST is structural. -/
inductive StepList where
  | nil
  | cons (s : PathStep) (rest : StepList)
end

/-- The save of one property by `Properties` (§4.1): for each current
node, one result per quad carrying that property, the property value
recorded under the property name as a tag; the position stays at the
subject. -/
def saveProp (qs : Store) (p : String) (bs : List Binding) : List Binding :=
  bs.flatMap fun b =>
    ((qs : List Quad).filter fun q => q.subject = b.cur ∧ q.predicate = p).map
      fun q => ⟨b.cur, upsert p q.object b.tags⟩

mutual
/-- Modelled from the spec (§4.1): the denotation of a compiled path
expression — the list of matches (bindings) a step produces over a store.
`amb` is the ambient path supplied by the nearest enclosing `Optional`
or `Where` scope, which `Placeholder` re-enters. -/
def evalStep (qs : Store) (amb : List Binding) : PathStep → List Binding
  | .start => startAll qs
  | .Vertex vals =>
      if vals.isEmpty then startAll qs
      else (vals.filter (fun v => v ∈ nodesOf qs)).map fun v => ⟨v, []⟩
  | .Placeholder => amb
  | .Visit fr props =>
      let preds := (evalStep qs amb props).map (·.cur)
      (evalStep qs amb fr).flatMap fun b =>
        ((qs : List Quad).filter fun q => q.subject = b.cur ∧ q.predicate ∈ preds).map
          fun q => ⟨q.object, b.tags⟩
  | .VisitReverse fr props =>
      let preds := (evalStep qs amb props).map (·.cur)
      (evalStep qs amb fr).flatMap fun b =>
        ((qs : List Quad).filter fun q => q.object = b.cur ∧ q.predicate ∈ preds).map
          fun q => ⟨q.subject, b.tags⟩
  | .As fr name =>
      (evalStep qs amb fr).map fun b => ⟨b.cur, upsert name b.cur b.tags⟩
  | .Is fr vals =>
      (evalStep qs amb fr).filter fun b => b.cur ∈ vals
  | .Has fr props vals =>
      let preds := (evalStep qs amb props).map (·.cur)
      (evalStep qs amb fr).filter fun b =>
        (qs : List Quad).any fun q =>
          q.subject = b.cur ∧ q.predicate ∈ preds ∧ (vals.isEmpty ∨ q.object ∈ vals)
  | .Optional fr step =>
      (evalStep qs amb fr).flatMap fun b =>
        match evalStep qs [b] step with
        | [] => [b]
        | c :: _ => [⟨b.cur, c.tags⟩]
  | .Where fr steps =>
      (evalStep qs amb fr).filterMap fun b => evalWhere qs b steps
  | .Properties fr names =>
      names.foldl (fun acc p => saveProp qs p acc) (evalStep qs amb fr)

/-- Modelled from the spec (§4.1, `Where`): compile each step against the
ambient binding in sequence, intersecting constraints while accumulating
tag bindings; a step with no match eliminates the binding. -/
def evalWhere (qs : Store) (b : Binding) : StepList → Option Binding
  | .nil => some b
  | .cons s rest =>
      match evalStep qs [b] s with
      | [] => none
      | c :: _ => evalWhere qs ⟨b.cur, c.tags⟩ rest
end

/-- The error taxonomy relevant to compilation (§7): a `ConfigurationError`
is raised for a malformed step, in particular a `Placeholder` used outside
a scope that supplies an ambient path. -/
inductive Err where
  | configuration (msg : String)
deriving DecidableEq

mutual
/-- Modelled from the spec (§4.1, §7): compile-time validity of a step.
`inScope` records whether an enclosing `Optional`/`Where` supplies an
ambient path; `Placeholder` outside such a scope is a configuration
error. -/
def checkStep (inScope : Bool) : PathStep → Bool
  | .start => true
  | .Vertex _ => true
  | .Placeholder => inScope
  | .Visit fr props => checkStep inScope fr && checkStep inScope props
  | .VisitReverse fr props => checkStep inScope fr && checkStep inScope props
  | .As fr _ => checkStep inScope fr
  | .Is fr _ => checkStep inScope fr
  | .Has fr props _ => checkStep inScope fr && checkStep inScope props
  | .Optional fr step => checkStep inScope fr && checkStep true step
  | .Where fr steps => checkStep inScope fr && checkList steps
  | .Properties fr _ => checkStep inScope fr

/-- Validity of every step of a `Where.Steps` list (each is compiled with
an ambient path in scope). -/
def checkList : StepList → Bool
  | .nil => true
  | .cons s rest => checkStep true s && checkList rest
end

/-- A compiled path expression, denoted by the matches it produces over a
store (§3: produced by `BuildPath`, consumed by composition or by the
iterator layer). -/
def PathDen := Store → List Binding

/-- Embedded from the source (`BuildFrom`): a nil From compiles to
`path.StartPath` (start at every node); otherwise the step's own
`BuildPath` runs, which fails with a `ConfigurationError` on a
`Placeholder` outside any ambient scope. -/
def BuildFrom (fr : Option PathStep) : Except Err PathDen :=
  match fr with
  | none => .ok (fun qs => startAll qs)
  | some s =>
      if checkStep false s then .ok (fun qs => evalStep qs [] s)
      else .error (.configuration "placeholder is not valid outside a query context")

/-- A typed value as it leaves the iterator layer (§6 wire shape): an
entity reference `{"@id": s}` or a literal `{"@value": v, "@type": t}`. -/
inductive TypedValue where
  | id (s : String)
  | typed (value typ : String)
deriving DecidableEq

/-- A flat tagged record: tag name to typed value. -/
abbrev TagRecord := List (String × TypedValue)

/-- Modelled from the spec (§4.2): `ValueIterator` wraps a compiled path
expression and yields its matches in order. -/
structure ValueIterator where
  path : PathDen

/-- Modelled from the spec (§4.2): `TagsIterator` projects each match's
tag binding set to a record according to `Selected`. -/
structure TagsIterator where
  ValueIt : ValueIterator
  Selected : List String

/-- Modelled from the spec (§4.2): the projection of one match. With
`Selected` empty, all tags present are included (the anonymous current
position under a reserved key when no tags exist at all); with `Selected`
non-empty, only the named tags, and a tag absent from the binding set is
omitted from the record entirely. Node identifiers resolve to entity
references. -/
def projectTags (selected : List String) (b : Binding) : TagRecord :=
  if selected.isEmpty then
    if b.tags.isEmpty then [("@current", .id b.cur)]
    else b.tags.map fun kv => (kv.1, .id kv.2)
  else selected.filterMap fun t => (lookupTag t b.tags).map fun v => (t, .id v)

/-- The sequence of typed values a `ValueIterator` yields over a store
(§4.2, single-threaded pull iteration of a finite path). -/
def ValueIterator.results (it : ValueIterator) (qs : Store) : List TypedValue :=
  (it.path qs).map fun b => .id b.cur

/-- The sequence of records a `TagsIterator` yields: one per underlying
match (§4.2). -/
def TagsIterator.results (it : TagsIterator) (qs : Store) : List TagRecord :=
  (it.ValueIt.path qs).map (projectTags it.Selected)

/-- Embedded from the source (`newTagsIteratorFrom`): compile From, wrap
the path in a `ValueIterator`, then in a `TagsIterator` with the selected
tags; a compilation error is returned unchanged with no iterator. -/
def newTagsIteratorFrom (fr : Option PathStep) (selected : List String) :
    Except Err TagsIterator :=
  match BuildFrom fr with
  | .error e => .error e
  | .ok p => .ok ⟨⟨p⟩, selected⟩

/-- Embedded from the source (`singleValueIteratorFrom`): compile From and
wrap `fromPath.Limit(1)` — the limit is applied to the compiled path
expression, before iteration begins — in a `ValueIterator`; a compilation
error is returned unchanged with no iterator. -/
def singleValueIteratorFrom (fr : Option PathStep) : Except Err ValueIterator :=
  match BuildFrom fr with
  | .error e => .error e
  | .ok p => .ok ⟨fun qs => (p qs).take 1⟩

/-- The `Select` step (source): flat records of the tags matched. -/
structure Select where
  From : Option PathStep
  Tags : List String

/-- Embedded from the source (`Select.BuildIterator`). -/
def Select.buildIterator (s : Select) : Except Err TagsIterator :=
  newTagsIteratorFrom s.From s.Tags

/-- The `SelectFirst` step (source): like `Select` but only the first
result. -/
structure SelectFirst where
  From : Option PathStep
  Tags : List String

/-- Embedded from the source (`SelectFirst.BuildIterator`): the
single-value iterator (path limited to 1) wrapped in a `TagsIterator`
with the step's tags. -/
def SelectFirst.buildIterator (s : SelectFirst) : Except Err TagsIterator :=
  match singleValueIteratorFrom s.From with
  | .error e => .error e
  | .ok it => .ok ⟨it, s.Tags⟩

/-- The `Value` step (source): a single value matched in the query. -/
structure Value where
  From : Option PathStep

/-- Embedded from the source (`Value.BuildIterator`): exactly the
single-value iterator. -/
def Value.buildIterator (s : Value) : Except Err ValueIterator :=
  singleValueIteratorFrom s.From

/-- A per-subject document (§3, §6): the subject identifier plus each
property name mapped to its ordered, possibly multi-valued list of
values. -/
structure Document where
  id : String
  props : List (String × List String)
deriving DecidableEq

/-- Append one property value to a document's property map, creating the
property's list on first sight. -/
def addTag (props : List (String × List String)) (k v : String) :
    List (String × List String) :=
  if props.any (fun p => p.1 = k) then
    props.map fun p => if p.1 = k then (p.1, p.2 ++ [v]) else p
  else props ++ [(k, [v])]

/-- Fold one match's tag bindings into a document. -/
def addBindingTags (d : Document) (tags : TagMap) : Document :=
  ⟨d.id, tags.foldl (fun acc kv => addTag acc kv.1 kv.2) d.props⟩

mutual
/-- Modelled from the spec (§4.4): group consecutive matches sharing the
same subject (the match's current position) into one document, accumulating
each property tag into an ordered multi-valued list; a new subject begins a
new document. -/
def groupDocuments : List Binding → List Document
  | [] => []
  | b :: rest => groupRun (addBindingTags ⟨b.cur, []⟩ b.tags) rest

/-- The in-progress document for the current adjacency run of its
subject. -/
def groupRun (d : Document) : List Binding → List Document
  | [] => [d]
  | b :: rest =>
      if b.cur = d.id then groupRun (addBindingTags d b.tags) rest
      else d :: groupRun (addBindingTags ⟨b.cur, []⟩ b.tags) rest
end

/-- Modelled from the spec (§4.3, §4.4): `DocumentIterator` consumes a
tags-iterator stream and emits per-subject documents. -/
structure DocumentIterator where
  tagsIt : TagsIterator

/-- The documents a `DocumentIterator` yields: the underlying matches
grouped by subject adjacency (§4.4). -/
def DocumentIterator.results (it : DocumentIterator) (qs : Store) : List Document :=
  groupDocuments (it.tagsIt.ValueIt.path qs)

/-- The `Documents` step (source). -/
structure Documents where
  From : Option PathStep

/-- Embedded from the source (`Documents.BuildIterator`): an untagged
`TagsIterator` over From fed into the document iterator; a compilation
error is returned unchanged with no iterator. -/
def Documents.buildIterator (s : Documents) : Except Err DocumentIterator :=
  match newTagsIteratorFrom s.From [] with
  | .error e => .error e
  | .ok t => .ok ⟨t⟩

/-- A value of a `Match` graph pattern (§4.5): either a nested identity
constraint `{"@id": X}` (the degenerate nested pattern) or a literal. -/
inductive PatternValue where
  | entity (id : String)
  | literal (v : String)

/-- A declarative graph pattern: a mapping from keys to pattern values;
the `"@id"` key constrains identity, any other key names a property. -/
abbrev GraphPattern := List (String × PatternValue)

/-- The constraining value of a pattern value. -/
def patternValueOf : PatternValue → String
  | .entity s => s
  | .literal s => s

/-- Modelled from the spec (§4.5): each pattern key becomes one clause
bound through `Placeholder` — an `"@id"` key compiles to `Is`, any other
key to `Has` on that property with the (possibly nested) value. -/
def patternSteps : GraphPattern → StepList
  | [] => .nil
  | (k, v) :: rest =>
      .cons
        (if k = "@id" then .Is .Placeholder [patternValueOf v]
         else .Has .Placeholder (.Vertex [k]) [patternValueOf v])
        (patternSteps rest)

/-- Modelled from the spec (§4.5): `Match{Pattern}` flattens the nested
pattern into one `Where` of `Has`/`Is` clauses bound through `Placeholder`,
preserving AND semantics across the keys. -/
def matchPattern (p : GraphPattern) : PathStep :=
  .Where .start (patternSteps p)

/-- Modelled from the spec and the repository's tests: the `Count` step is
absent from the spec's step catalogue (§4.1) and its implementation is not
part of the source slice; its observable contract is fixed by the test
suite, which expects `{"@value": "4", "@type": "schema:Integer"}` over the
single-quad store — the store's reported size for the all-nodes path.  On
the in-memory store that size is the total number of primitives: one per
registered value plus one per quad. -/
def storeSize (qs : Store) : Nat :=
  (nodesOf qs).length + qs.length

/-- The `Count` step (present in the repository's tests only). -/
structure Count where
  From : Option PathStep

/-- Modelled from the spec and the repository's tests (see `storeSize`):
`Count` compiles its From and yields a single integer literal in the wire
shape `{"@value": <n>, "@type": "schema:Integer"}`, where `n` is the
store-reported size of the compiled path, not the number of iterated
matches. -/
def Count.results (s : Count) (qs : Store) : Except Err (List TypedValue) :=
  match BuildFrom s.From with
  | .error e => .error e
  | .ok _ => .ok [.typed (toString (storeSize qs)) "schema:Integer"]

/-- The result of compiling a From child and running the compiled path
over a store. -/
def buildFromEval (fr : Option PathStep) (qs : Store) : Except Err (List Binding) :=
  (BuildFrom fr).map fun p => p qs

/-- The record stream a `Select` query produces over a store. -/
def selectRecords (s : Select) (qs : Store) : Except Err (List TagRecord) :=
  (s.buildIterator).map fun it => it.results qs

/-- The record stream a `SelectFirst` query produces over a store. -/
def selectFirstRecords (s : SelectFirst) (qs : Store) : Except Err (List TagRecord) :=
  (s.buildIterator).map fun it => it.results qs

/-- The value stream a `Value` query produces over a store. -/
def valueResults (s : Value) (qs : Store) : Except Err (List TypedValue) :=
  (s.buildIterator).map fun it => it.results qs

/-- The document stream a `Documents` query produces over a store. -/
def documentsResults (s : Documents) (qs : Store) : Except Err (List Document) :=
  (s.buildIterator).map fun it => it.results qs

/-- The single-quad store alice–likes→bob used throughout the tests. -/
def singleStore : Store := [⟨"alice", "likes", "bob"⟩]

/-- The four-quad store of the `Documents` test: alice likes bob and is
named Alice; bob likes alice and is named Bob. -/
def docStore : Store :=
  [⟨"alice", "likes", "bob"⟩, ⟨"alice", "name", "Alice"⟩,
   ⟨"bob", "name", "Bob"⟩, ⟨"bob", "likes", "alice"⟩]

/-- The two-quad store of the `Match` tests. -/
def matchStore : Store :=
  [⟨"http://example.org/alice", "http://example.org/likes", "http://example.org/bob"⟩,
   ⟨"http://example.org/bob", "http://example.org/likes", "http://example.org/alice"⟩]

instance {ε α : Type} [DecidableEq ε] [DecidableEq α] : DecidableEq (Except ε α) := fun a b =>
  match a, b with
  | .error e, .error f =>
      if h : e = f then .isTrue (by rw [h]) else .isFalse (fun hh => by cases hh; exact h rfl)
  | .error _, .ok _ => .isFalse (fun hh => by cases hh)
  | .ok _, .error _ => .isFalse (fun hh => by cases hh)
  | .ok x, .ok y =>
      if h : x = y then .isTrue (by rw [h]) else .isFalse (fun hh => by cases hh; exact h rfl)

/-- Unfolding of `Optional` (§4.1): one output binding per From match —
the From binding itself when the optional step has no match, otherwise the
From position carrying the first step match's tag contributions. -/
theorem optional_eval (qs : Store) (amb : List Binding) (fr step : PathStep) :
    evalStep qs amb (.Optional fr step) =
      (evalStep qs amb fr).map fun b =>
        match evalStep qs [b] step with
        | [] => b
        | c :: _ => ⟨b.cur, c.tags⟩ := by
  simp only [evalStep]
  generalize evalStep qs amb fr = l
  induction l with
  | nil => rfl
  | cons b bs ih =>
      rw [List.flatMap_cons, List.map_cons, ih]
      cases h : evalStep qs [b] step <;> simp [h]

/-- A `Where` of a single clause that acts on each ambient binding as a
filter is a filter of the ambient path. -/
theorem where_single_filter (qs : Store) (l : List Binding) (s : PathStep) (p : Binding → Bool)
    (h : ∀ b : Binding, evalStep qs [b] s = [b].filter p) :
    (l.filterMap fun b => evalWhere qs b (.cons s .nil)) = l.filter p := by
  induction l with
  | nil => rfl
  | cons b bs ih =>
      rw [List.filterMap_cons, List.filter_cons, ih]
      have hw : evalWhere qs b (.cons s .nil) = if p b then some b else none := by
        rw [evalWhere, h b]
        cases hp : p b <;> simp [List.filter_cons, hp, evalWhere]
      rw [hw]
      cases hp : p b <;> simp [hp]

/-- **C1**: for every step whose From has minCardinality 0 (Select,
SelectFirst, Value, Documents), building it with From omitted (nil) is
equivalent to building it with `From = &Vertex{}`: compilation starts at
every node of the store, and on the single-quad store alice–likes→bob that
universal start yields exactly the three nodes alice, likes and bob,
predicate node included. -/
theorem default_from_equals_vertex (qs : Store) (tags : List String) :
    buildFromEval none qs = buildFromEval (some (.Vertex [])) qs ∧
    selectRecords ⟨none, tags⟩ qs = selectRecords ⟨some (.Vertex []), tags⟩ qs ∧
    selectFirstRecords ⟨none, tags⟩ qs = selectFirstRecords ⟨some (.Vertex []), tags⟩ qs ∧
    valueResults ⟨none⟩ qs = valueResults ⟨some (.Vertex [])⟩ qs ∧
    documentsResults ⟨none⟩ qs = documentsResults ⟨some (.Vertex [])⟩ qs ∧
    buildFromEval none singleStore = .ok [⟨"alice", []⟩, ⟨"likes", []⟩, ⟨"bob", []⟩] :=
  ⟨rfl, rfl, rfl, rfl, rfl, by decide⟩

/-- **C2**: on the store of the single quad alice–likes→bob, the query
`Select{From: As{Name:"liked", From: Visit{From: As{Name:"liker"},
Properties:[likes]}}}` yields exactly the one record
`{"liker": {"@id":"alice"}, "liked": {"@id":"bob"}}` and then terminates
without error. -/
theorem select_single_quad_scenario :
    selectRecords ⟨some (.As (.Visit (.As .start "liker") (.Vertex ["likes"])) "liked"), []⟩
        singleStore =
      .ok [[("liker", .id "alice"), ("liked", .id "bob")]] := by decide

/-- **C3**: for every query and every match, `Select` with nil Tags
includes in the emitted record every tag present in that match's binding
set, while `Select` with `Tags = ["x"]` emits a record containing only the
tag x, and a match whose binding set lacks x produces a record with x
entirely omitted. -/
theorem select_tags_projection (qs : Store) (s : Select) (it : TagsIterator) (b : Binding)
    (hok : s.buildIterator = .ok it) (hb : b ∈ it.ValueIt.path qs) :
    (s.Tags = [] → b.tags ≠ [] →
      (b.tags.map fun kv => (kv.1, TypedValue.id kv.2)) ∈ it.results qs) ∧
    (s.Tags = ["x"] →
      projectTags ["x"] b ∈ it.results qs ∧
      (∀ f ∈ projectTags ["x"] b, f.1 = "x") ∧
      (lookupTag "x" b.tags = none → projectTags ["x"] b = [])) := by
  have hsel : it.Selected = s.Tags := by
    cases h : BuildFrom s.From with
    | error e => simp [Select.buildIterator, newTagsIteratorFrom, h] at hok
    | ok p =>
        simp [Select.buildIterator, newTagsIteratorFrom, h] at hok
        rw [← hok]
  constructor
  · intro htags hne
    have hpr : projectTags [] b = b.tags.map fun kv => (kv.1, TypedValue.id kv.2) := by
      simp [projectTags, hne]
    rw [TagsIterator.results, hsel, htags, ← hpr]
    exact List.mem_map_of_mem _ hb
  · intro htags
    refine ⟨?_, ?_, ?_⟩
    · rw [TagsIterator.results, hsel, htags]
      exact List.mem_map_of_mem _ hb
    · intro f hf
      cases hl : lookupTag "x" b.tags with
      | none => simp [projectTags, hl] at hf
      | some v =>
          simp [projectTags, hl] at hf
          rw [hf]
    · intro hnone
      simp [projectTags, hnone]

/-- Witness for C3: the compiled scenario query at its single match. -/
theorem select_tags_projection_witness :
    ((⟨"bob", [("liker", "alice"), ("liked", "bob")]⟩ : Binding) ∈
      (TagsIterator.mk
        ⟨fun qs => evalStep qs []
          (.As (.Visit (.As .start "liker") (.Vertex ["likes"])) "liked")⟩ []).ValueIt.path
        singleStore) ∧
    [("liker", TypedValue.id "alice"), ("liked", TypedValue.id "bob")] ∈
      (TagsIterator.mk
        ⟨fun qs => evalStep qs []
          (.As (.Visit (.As .start "liker") (.Vertex ["likes"])) "liked")⟩ []).results
        singleStore :=
  ⟨by decide, by
    have h := (select_tags_projection singleStore
      ⟨some (.As (.Visit (.As .start "liker") (.Vertex ["likes"])) "liked"), []⟩
      (TagsIterator.mk
        ⟨fun qs => evalStep qs []
          (.As (.Visit (.As .start "liker") (.Vertex ["likes"])) "liked")⟩ [])
      ⟨"bob", [("liker", "alice"), ("liked", "bob")]⟩ rfl (by decide)).1 rfl (by decide)
    simpa using h⟩

/-- **C4**: `SelectFirst{From, Tags}` performs the identical tag
projection as `Select{From, Tags}` restricted to the first match — the
limit of 1 is applied to the compiled path expression at compile time
(`singleValueIteratorFrom` limits the path before the iterator is built) —
hence `SelectFirst` emits at most one record for every store and every
From. -/
theorem selectFirst_limits_compiled_path (fr : Option PathStep) (tags : List String)
    (qs : Store) :
    selectFirstRecords ⟨fr, tags⟩ qs =
      (selectRecords ⟨fr, tags⟩ qs).map (fun rs => rs.take 1) ∧
    (∀ it, SelectFirst.buildIterator ⟨fr, tags⟩ = .ok it → (it.results qs).length ≤ 1) := by
  cases h : BuildFrom fr with
  | error e =>
      refine ⟨?_, ?_⟩
      · simp [selectFirstRecords, selectRecords, SelectFirst.buildIterator,
          Select.buildIterator, newTagsIteratorFrom, singleValueIteratorFrom, h, Except.map]
      · intro it hit
        simp [SelectFirst.buildIterator, singleValueIteratorFrom, h] at hit
  | ok p =>
      refine ⟨?_, ?_⟩
      · simp [selectFirstRecords, selectRecords, SelectFirst.buildIterator,
          Select.buildIterator, newTagsIteratorFrom, singleValueIteratorFrom, h, Except.map,
          TagsIterator.results, List.map_take]
      · intro it hit
        simp [SelectFirst.buildIterator, singleValueIteratorFrom, h] at hit
        subst hit
        simp [TagsIterator.results]

/-- Witness for C4: the default-From `SelectFirst` over the single-quad
store emits at most one record. -/
theorem selectFirst_limits_compiled_path_witness :
    ((TagsIterator.mk ⟨fun qs => (startAll qs).take 1⟩ []).results singleStore).length ≤ 1 :=
  (selectFirst_limits_compiled_path none [] singleStore).2 _ rfl

/-- **C5**: `Value{From}` and `SelectFirst{From}` with no tags select the
same single underlying match — both compile From and limit the compiled
path to 1 — and differ only in output shape: `Value` emits the match as a
single scalar typed value, `SelectFirst` as a tag record. -/
theorem value_is_selectFirst_unwrapped (fr : Option PathStep) (qs : Store) :
    (Value.buildIterator ⟨fr⟩).map (fun it => it.path qs) =
      (SelectFirst.buildIterator ⟨fr, []⟩).map (fun it => it.ValueIt.path qs) ∧
    valueResults ⟨fr⟩ qs =
      (SelectFirst.buildIterator ⟨fr, []⟩).map
        (fun it => (it.ValueIt.path qs).map fun b => TypedValue.id b.cur) ∧
    selectFirstRecords ⟨fr, []⟩ qs =
      (SelectFirst.buildIterator ⟨fr, []⟩).map
        (fun it => (it.ValueIt.path qs).map (projectTags [])) := by
  cases h : BuildFrom fr with
  | error e =>
      refine ⟨?_, ?_, ?_⟩ <;>
        simp [Value.buildIterator, SelectFirst.buildIterator, valueResults,
          selectFirstRecords, singleValueIteratorFrom, h, Except.map]
  | ok p =>
      refine ⟨?_, ?_, ?_⟩ <;>
        simp [Value.buildIterator, SelectFirst.buildIterator, valueResults,
          selectFirstRecords, singleValueIteratorFrom, h, Except.map,
          ValueIterator.results, TagsIterator.results]

/-- **C6**: for every store and every pair of steps From and Step,
`Select{From: Optional{From, Step}}` emits exactly one record per match of
From: when Step matches for a binding the record carries Step's tag
contributions, and when Step yields no match the binding is still emitted
unchanged, without those tags. -/
theorem optional_preserves_cardinality (qs : Store) (fr step : PathStep)
    (h : checkStep false (.Optional fr step) = true) :
    ∃ it, Select.buildIterator ⟨some (.Optional fr step), []⟩ = .ok it ∧
      (it.results qs).length = (evalStep qs [] fr).length ∧
      ∀ b ∈ evalStep qs [] fr,
        (evalStep qs [b] step = [] → b ∈ it.ValueIt.path qs) ∧
        (∀ c cs, evalStep qs [b] step = c :: cs →
          Binding.mk b.cur c.tags ∈ it.ValueIt.path qs) := by
  refine ⟨⟨⟨fun s => evalStep s [] (.Optional fr step)⟩, []⟩, ?_, ?_, ?_⟩
  · simp [Select.buildIterator, newTagsIteratorFrom, BuildFrom, h]
  · simp [TagsIterator.results, optional_eval]
  · intro b hb
    constructor
    · intro hstep
      show b ∈ evalStep qs [] (.Optional fr step)
      rw [optional_eval]
      have h2 := List.mem_map_of_mem
        (f := fun b => match evalStep qs [b] step with
          | [] => b
          | c :: _ => (⟨b.cur, c.tags⟩ : Binding)) hb
      simpa [hstep] using h2
    · intro c cs hstep
      show Binding.mk b.cur c.tags ∈ evalStep qs [] (.Optional fr step)
      rw [optional_eval]
      have h2 := List.mem_map_of_mem
        (f := fun b => match evalStep qs [b] step with
          | [] => b
          | c :: _ => (⟨b.cur, c.tags⟩ : Binding)) hb
      simpa [hstep] using h2

/-- Witness for C6: `Optional` over the default start with a `likes`
property extension on the single-quad store. -/
theorem optional_preserves_cardinality_witness :
    (checkStep false (.Optional (.Vertex []) (.Properties .Placeholder ["likes"])) = true) ∧
    (∃ it, Select.buildIterator
        ⟨some (.Optional (.Vertex []) (.Properties .Placeholder ["likes"])), []⟩ = .ok it ∧
      (it.results singleStore).length =
        (evalStep singleStore [] (.Vertex [])).length ∧
      ∀ b ∈ evalStep singleStore [] (.Vertex []),
        (evalStep singleStore [b] (.Properties .Placeholder ["likes"]) = [] →
          b ∈ it.ValueIt.path singleStore) ∧
        (∀ c cs, evalStep singleStore [b] (.Properties .Placeholder ["likes"]) = c :: cs →
          Binding.mk b.cur c.tags ∈ it.ValueIt.path singleStore)) :=
  ⟨by decide, optional_preserves_cardinality singleStore _ _ (by decide)⟩

/-- **C7**: `Documents{From}` builds an untagged `TagsIterator` over From
and feeds it to the document iterator, which groups consecutive bindings
sharing the same subject into one document `{"@id": subject, property:
[value, ...]}`; on the four-quad store with a `Properties` source over
both property names it yields exactly two documents in subject-adjacency
order, each listing its two properties as single-element arrays. -/
theorem documents_grouping_scenario :
    ∃ it, Documents.buildIterator ⟨some (.Properties (.Vertex []) ["name", "likes"])⟩ =
        .ok it ∧
      it.tagsIt.Selected = [] ∧
      it.results docStore =
        [⟨"alice", [("name", ["Alice"]), ("likes", ["bob"])]⟩,
         ⟨"bob", [("name", ["Bob"]), ("likes", ["alice"])]⟩] :=
  ⟨_, rfl, rfl, by decide⟩

/-- **C8**: for every store and identifier X, `Match{{"@id": X}}` yields
the same result set as `Is{Values:[X]}`, and for every property p,
`Match{{"p": {"@id": X}}}` yields the same result set as
`Has{Property: p, Values:[X]}`. -/
theorem match_equals_is_has (qs : Store) (X p : String) (hp : p ≠ "@id") :
    evalStep qs [] (matchPattern [("@id", .entity X)]) = evalStep qs [] (.Is .start [X]) ∧
    evalStep qs [] (matchPattern [(p, .entity X)]) =
      evalStep qs [] (.Has .start (.Vertex [p]) [X]) := by
  constructor
  · have hshape : matchPattern [("@id", .entity X)] =
        .Where .start (.cons (.Is .Placeholder [X]) .nil) := by
      simp [matchPattern, patternSteps, patternValueOf]
    rw [hshape]
    show (startAll qs).filterMap
        (fun b => evalWhere qs b (.cons (.Is .Placeholder [X]) .nil)) =
      (startAll qs).filter fun b => decide (b.cur ∈ [X])
    exact where_single_filter qs (startAll qs) _ _ (fun b => rfl)
  · have hshape : matchPattern [(p, .entity X)] =
        .Where .start (.cons (.Has .Placeholder (.Vertex [p]) [X]) .nil) := by
      simp [matchPattern, patternSteps, patternValueOf, hp]
    rw [hshape]
    show (startAll qs).filterMap
        (fun b => evalWhere qs b (.cons (.Has .Placeholder (.Vertex [p]) [X]) .nil)) =
      (startAll qs).filter _
    exact where_single_filter qs (startAll qs) _ _ (fun b => rfl)

/-- Witness for C8: the two-quad store and identifiers of the repository's
Match tests. -/
theorem match_equals_is_has_witness :
    ("http://example.org/likes" ≠ "@id") ∧
    (evalStep matchStore []
        (matchPattern [("@id", .entity "http://example.org/alice")]) =
      evalStep matchStore [] (.Is .start ["http://example.org/alice"]) ∧
    evalStep matchStore []
        (matchPattern [("http://example.org/likes", .entity "http://example.org/alice")]) =
      evalStep matchStore []
        (.Has .start (.Vertex ["http://example.org/likes"]) ["http://example.org/alice"])) :=
  ⟨by decide,
    match_equals_is_has matchStore "http://example.org/alice" "http://example.org/likes"
      (by decide)⟩

/-- **C9**: for each of Select, SelectFirst, Value and Documents, if
compiling the From child fails with an error, `BuildIterator` returns that
error unchanged together with no iterator. -/
theorem build_error_propagates_unchanged (fr : Option PathStep) (tags : List String) (e : Err)
    (h : BuildFrom fr = .error e) :
    Select.buildIterator ⟨fr, tags⟩ = .error e ∧
    SelectFirst.buildIterator ⟨fr, tags⟩ = .error e ∧
    Value.buildIterator ⟨fr⟩ = .error e ∧
    Documents.buildIterator ⟨fr⟩ = .error e := by
  simp [Select.buildIterator, SelectFirst.buildIterator, Value.buildIterator,
    Documents.buildIterator, newTagsIteratorFrom, singleValueIteratorFrom, h]

/-- Witness for C9: a bare `Placeholder` From fails to compile and the
configuration error comes back unchanged. -/
theorem build_error_propagates_unchanged_witness :
    BuildFrom (some .Placeholder) =
      .error (.configuration "placeholder is not valid outside a query context") ∧
    (Select.buildIterator ⟨some .Placeholder, []⟩ =
        .error (.configuration "placeholder is not valid outside a query context") ∧
      SelectFirst.buildIterator ⟨some .Placeholder, []⟩ =
        .error (.configuration "placeholder is not valid outside a query context") ∧
      Value.buildIterator ⟨some .Placeholder⟩ =
        .error (.configuration "placeholder is not valid outside a query context") ∧
      Documents.buildIterator ⟨some .Placeholder⟩ =
        .error (.configuration "placeholder is not valid outside a query context")) :=
  ⟨rfl, build_error_propagates_unchanged (some .Placeholder) [] _ rfl⟩

/-- **C10**, counterexample: the claim says `Count` yields the number of
matches of From, and that on the single-quad store with `From = Vertex{}`
it yields `{"@value": "4", ...}`; but `Vertex{}` has exactly 3 matches on
that store (the repository's own All Vertices test), so the output fixed
by the repository's Count test ("4") is not the match count. -/
theorem count_not_match_count_counterexample :
    ¬ (Count.results ⟨some (.Vertex [])⟩ singleStore =
        .ok [.typed (toString ((evalStep singleStore [] (.Vertex [])).length))
          "schema:Integer"]) := by decide

/-- **C10**, amended: the `Count` step (absent from the spec's catalogue)
yields a single integer literal `{"@value": <n>, "@type": "schema:Integer"}`
where n is the store-reported size of the compiled path — on the in-memory
store the total primitive count, values plus quads — not the number of
iterated matches; on the single-quad store with `From = Vertex{}` that is 4
(3 value primitives + 1 quad primitive), while `Vertex{}` iterates 3
matches. -/
theorem count_reports_store_size :
    Count.results ⟨some (.Vertex [])⟩ singleStore = .ok [.typed "4" "schema:Integer"] ∧
    storeSize singleStore = 4 ∧
    (nodesOf singleStore).length = 3 ∧
    singleStore.length = 1 ∧
    (evalStep singleStore [] (.Vertex [])).length = 3 := by decide

end LinkedQL
